import Mathlib

/-!
Verification of the scikit-learn → TFDF model converter
(`scikit_learn_model_converter.py`).

The development shallowly embeds the converter: numpy floats become `ℚ`,
Python lists become `List`, Python exceptions become an explicit error type,
and the unbounded recursion of `_convert_sklearn_node_to_tfdf_node` becomes a
fuel-indexed total function (`none` = the call does not return).
-/

namespace ScikitLearnModelConverter

/-- The type of task that a scikit-learn model performs (`TaskType`). -/
inductive TaskType where
  | UNKNOWN
  | SCALAR_REGRESSION
  | SINGLE_LABEL_CLASSIFICATION
deriving DecidableEq, Repr

/-- The Python exceptions the converter can raise. `AttributeError` is what
reading a fit-time attribute (such as `classes_`) of a never-fit estimator
raises. -/
inductive PyError where
  | ValueError (msg : String)
  | NotImplementedError (msg : String)
  | IndexError
  | AttributeError
deriving DecidableEq, Repr

/-- One record of the flat `nodes` array of `sklearn_tree.tree_.__getstate__()`:
child indices (`-1` = no child), split feature id and split threshold.
In sklearn the `feature` field of a leaf holds the sentinel `-2`, so it is an
`Int`, not a `Nat`. -/
structure SklearnNodeRecord where
  left_child : Int
  right_child : Int
  feature : Int
  threshold : ℚ
deriving DecidableEq, Repr

/-- The fitted state of a sklearn tree (`tree_.__getstate__()`): the flat
`nodes` array and the parallel `values` array of per-node statistics
(each entry has shape `n_outputs × k`, hence a list of rows). -/
structure SklearnTreeState where
  nodes : List SklearnNodeRecord
  values : List (List (List ℚ))
deriving DecidableEq, Repr

/-- The concrete estimator subtype, which `functools.singledispatch`
dispatches on in `_build_tfdf_model`. -/
inductive SklearnModelType where
  | DecisionTreeRegressor
  | ExtraTreeRegressor
  | DecisionTreeClassifier
  | ExtraTreeClassifier
  | OtherModel (typeName : String)
deriving DecidableEq, Repr

/-- The estimator-level attributes the converter reads: the concrete subtype,
the optional fitted tree state (`tree_`; `none` when the model was never fit),
`n_outputs_`, the optional `n_classes_` attribute (`hasattr` check), the
optional `classes_` attribute (absent until fit — accessing it then raises
`AttributeError`; present classes are already coerced to strings, as `str` is
applied to them), and `n_features_in_`. -/
structure ScikitLearnModel where
  modelType : SklearnModelType
  tree_ : Option SklearnTreeState
  n_outputs_ : Nat
  n_classes_ : Option Nat
  classes_ : Option (List String)
  n_features_in_ : Nat
deriving DecidableEq, Repr

/-- `tfdf.py_tree.value`: a leaf value is either a regression scalar
(`RegressionValue`) or a distribution over classes (`ProbabilityValue`). -/
inductive AbstractValue where
  | RegressionValue (value : ℚ)
  | ProbabilityValue (probability : List ℚ)
deriving DecidableEq, Repr

/-- `tfdf.py_tree.dataspec.ColumnType`: the converter only emits NUMERICAL. -/
inductive ColumnType where
  | NUMERICAL
deriving DecidableEq, Repr

/-- Base-10 digits of `n`, least significant first, with explicit descent
fuel so that the definition computes by kernel reduction. -/
def natDigitsAux : Nat → Nat → List Nat
  | 0, _ => []
  | fuel + 1, n => if n = 0 then [] else n % 10 :: natDigitsAux fuel (n / 10)

/-- Python string of a nonnegative integer, modelled as its base-10 digit
list; the converter only stringifies the (nonnegative) feature ids of split
nodes. -/
def pyStr (i : Int) : List Nat := natDigitsAux (i.toNat + 1) i.toNat

/-- Python `int` applied to such a digit string. -/
def pyInt (s : List Nat) : Int := (Nat.ofDigits 10 s : Nat)

/-- `tfdf.py_tree.dataspec.SimpleColumnSpec`: a feature reference carrying a
derived name (the stringified column index) and the column index itself. -/
structure SimpleColumnSpec where
  name : List Nat
  type : ColumnType
  col_idx : Int
deriving DecidableEq, Repr

/-- `tfdf.py_tree.condition.NumericalHigherThanCondition`: true iff the value
of the feature is strictly greater than the threshold;
`missing_evaluation` is the value of the condition on a missing feature. -/
structure NumericalHigherThanCondition where
  feature : SimpleColumnSpec
  threshold : ℚ
  missing_evaluation : Bool
deriving DecidableEq, Repr

/-- `tfdf.py_tree.node`: a decision node (`NonLeafNode`, with a condition, a
positive child and a negative child — the converter always supplies a present
positive child, while the negative child field may be `None`) or a leaf
(`LeafNode`) carrying a value. -/
inductive AbstractNode where
  | NonLeafNode (condition : NumericalHigherThanCondition)
      (pos_child : AbstractNode) (neg_child : Option AbstractNode)
  | LeafNode (value : AbstractValue)

/-- `tfdf.py_tree.tree.Tree`: just a (possibly absent) root node. -/
structure PyTree where
  root : Option AbstractNode

/-- Python list indexing (`lst[i]`): nonnegative indices from the front,
negative indices from the back, `none` = `IndexError`. -/
def pyGet (l : List α) (i : Int) : Option α :=
  if 0 ≤ i then l[i.toNat]?
  else if 0 ≤ i + l.length then l[(i + l.length).toNat]?
  else none

/-- The per-node dict built by `_convert_sklearn_tree_to_tfdf_pytree`: the
fields of the flat node record plus the precomputed `"value"` entry. -/
structure PyNode where
  left_child : Int
  right_child : Int
  feature : Int
  threshold : ℚ
  value : AbstractValue
deriving DecidableEq, Repr

/-- The value precomputed for one node from its `target_value` statistics:
regression takes `target_value[0][0]`; classification normalises
`target_value[0]` by its sum; any other task type raises `ValueError`. -/
def buildValue (task : TaskType) (target_value : List (List ℚ)) :
    Except PyError AbstractValue :=
  match task with
  | .SCALAR_REGRESSION =>
    match pyGet target_value 0 with
    | none => .error .IndexError
    | some row =>
      match pyGet row 0 with
      | none => .error .IndexError
      | some v => .ok (.RegressionValue v)
  | .SINGLE_LABEL_CLASSIFICATION =>
    match pyGet target_value 0 with
    | none => .error .IndexError
    | some row => .ok (.ProbabilityValue (row.map (fun c => c / row.sum)))
  | .UNKNOWN =>
    .error (.ValueError
      "Only scalar regression and single-label classification are supported.")

/-- The node-building loop of `_convert_sklearn_tree_to_tfdf_pytree`: zip the
flat records with the value statistics and attach each precomputed value,
stopping at the first error (the loop raises at its first iteration over an
unsupported task type). -/
def buildNodes (task : TaskType) :
    List (SklearnNodeRecord × List (List ℚ)) → Except PyError (List PyNode)
  | [] => .ok []
  | (nr, tv) :: rest =>
    match buildValue task tv with
    | .error e => .error e
    | .ok v =>
      match buildNodes task rest with
      | .error e => .error e
      | .ok ns => .ok (⟨nr.left_child, nr.right_child, nr.feature, nr.threshold, v⟩ :: ns)

/-- `_get_sklearn_tree_task_type`: classification iff the estimator has an
`n_classes_` attribute and one output, regression iff one output without the
attribute, unknown otherwise. -/
def getSklearnTreeTaskType (m : ScikitLearnModel) : TaskType :=
  if m.n_classes_.isSome = true ∧ m.n_outputs_ = 1 then .SINGLE_LABEL_CLASSIFICATION
  else if m.n_outputs_ = 1 then .SCALAR_REGRESSION
  else .UNKNOWN

/-- `_convert_sklearn_node_to_tfdf_node`, with explicit recursion fuel
(`none` = the recursion does not return, e.g. on cyclic child indices).
Index `-1` yields no node (`.ok none`); otherwise the node record is looked
up, both children are converted recursively, and a decision node is emitted
when the positive child exists, a leaf carrying the precomputed value
otherwise. -/
def convertSklearnNodeToTfdfNode (nodes : List PyNode) :
    Nat → Int → Option (Except PyError (Option AbstractNode))
  | 0, _ => none
  | fuel + 1, node_index =>
    if node_index = -1 then some (.ok none)
    else
      match pyGet nodes node_index with
      | none => some (.error .IndexError)
      | some node =>
        match convertSklearnNodeToTfdfNode nodes fuel node.left_child with
        | none => none
        | some (.error e) => some (.error e)
        | some (.ok neg_child) =>
          match convertSklearnNodeToTfdfNode nodes fuel node.right_child with
          | none => none
          | some (.error e) => some (.error e)
          | some (.ok pos_child) =>
            match pos_child with
            | some pc =>
              some (.ok (some (.NonLeafNode
                ⟨⟨pyStr node.feature, .NUMERICAL, node.feature⟩, node.threshold, false⟩
                pc neg_child)))
            | none => some (.ok (some (.LeafNode node.value)))

/-- `_convert_sklearn_tree_to_tfdf_pytree`: fail with `ValueError` when the
model has no fitted `tree_` state, otherwise build the per-node values and
convert the structure starting from root index `0`. -/
def convertSklearnTreeToTfdfPytree (fuel : Nat) (m : ScikitLearnModel) :
    Option (Except PyError PyTree) :=
  match m.tree_ with
  | none =>
    some (.error (.ValueError
      "Scikit-Learn model must be fit to data before converting."))
  | some st =>
    match buildNodes (getSklearnTreeTaskType m) (st.nodes.zip st.values) with
    | .error e => some (.error e)
    | .ok pyNodes =>
      match convertSklearnNodeToTfdfNode pyNodes fuel 0 with
      | none => none
      | some (.error e) => some (.error e)
      | some (.ok root) => some (.ok ⟨root⟩)

/-- `tfdf.py_tree.objective`: regression with a label name, or classification
with a label name and the ordered class list. -/
inductive Objective where
  | RegressionObjective (label : String)
  | ClassificationObjective (label : String) (classes : List String)
deriving DecidableEq, Repr

/-- The model persisted by the CART builder and reloaded: its objective and
its single tree. -/
structure TfdfModel where
  objective : Objective
  tree : PyTree

/-- The regression branch of `_build_tfdf_model` (registered for
`DecisionTreeRegressor` and `ExtraTreeRegressor`): a `RegressionObjective`
with the placeholder label and the converted pytree. -/
def buildTfdfModelRegression (fuel : Nat) (m : ScikitLearnModel) :
    Option (Except PyError TfdfModel) :=
  match convertSklearnTreeToTfdfPytree fuel m with
  | none => none
  | some (.error e) => some (.error e)
  | some (.ok t) => some (.ok ⟨.RegressionObjective "label", t⟩)

/-- The classification branch of `_build_tfdf_model` (registered for
`DecisionTreeClassifier` and `ExtraTreeClassifier`): the
`ClassificationObjective` is built first, reading `sklearn_model.classes_` —
on a never-fit estimator that attribute is absent and the branch raises
`AttributeError` before `_convert_sklearn_tree_to_tfdf_pytree` ever runs;
with the classes present, the pytree is converted and paired with the
objective carrying the placeholder label and the stringified classes. -/
def buildTfdfModelClassification (fuel : Nat) (m : ScikitLearnModel) :
    Option (Except PyError TfdfModel) :=
  match m.classes_ with
  | none => some (.error .AttributeError)
  | some cls =>
    match convertSklearnTreeToTfdfPytree fuel m with
    | none => none
    | some (.error e) => some (.error e)
    | some (.ok t) => some (.ok ⟨.ClassificationObjective "label" cls, t⟩)

/-- `_build_tfdf_model`: the `functools.singledispatch` switch over the four
supported estimator subtypes; any other subtype raises `NotImplementedError`
naming the type. -/
def buildTfdfModel (fuel : Nat) (m : ScikitLearnModel) :
    Option (Except PyError TfdfModel) :=
  match m.modelType with
  | .DecisionTreeRegressor => buildTfdfModelRegression fuel m
  | .ExtraTreeRegressor => buildTfdfModelRegression fuel m
  | .DecisionTreeClassifier => buildTfdfModelClassification fuel m
  | .ExtraTreeClassifier => buildTfdfModelClassification fuel m
  | .OtherModel n =>
    some (.error (.NotImplementedError ("Can’t build a TFDF model for " ++ n)))

/-- The value of feature column `c` in a dense feature row `x`; both the
source and the target routing semantics read features through this accessor. -/
def featVal (x : List ℚ) (c : Int) : ℚ :=
  if 0 ≤ c then x.getD c.toNat 0 else 0

/-- Modelled from the spec: the inference routing of the target runtime,
which is not part of this repository — a decision node routes to its positive
child iff the value of its feature is strictly greater than its threshold,
and a leaf returns its value. -/
def routeAbstractNode (x : List ℚ) : AbstractNode → Option AbstractValue
  | .LeafNode v => some v
  | .NonLeafNode cond pos none =>
    if cond.threshold < featVal x cond.feature.col_idx then routeAbstractNode x pos
    else none
  | .NonLeafNode cond pos (some neg) =>
    if cond.threshold < featVal x cond.feature.col_idx then routeAbstractNode x pos
    else routeAbstractNode x neg

/-- Modelled from the spec: the flat-array routing of the source estimator,
which is not part of this repository — starting from a node index, stop at a
node without a left child, otherwise go to `right_child` iff the feature value
is strictly greater than the threshold, to `left_child` otherwise; returns
the index of the leaf reached. -/
def sklearnRouteIndex (nodes : List SklearnNodeRecord) (x : List ℚ) :
    Nat → Int → Option Int
  | 0, _ => none
  | fuel + 1, i =>
    match pyGet nodes i with
    | none => none
    | some nd =>
      if nd.left_child = -1 then some i
      else if nd.threshold < featVal x nd.feature then
        sklearnRouteIndex nodes x fuel nd.right_child
      else
        sklearnRouteIndex nodes x fuel nd.left_child

/-- Modelled from the spec: the prediction of the source estimator, which is
not part of this repository — route the input through the flat arrays and
read the statistics of the leaf reached: the stored scalar for regression,
the per-class counts normalised to probabilities for classification. -/
def sklearnPredict (fuel : Nat) (st : SklearnTreeState) (task : TaskType)
    (x : List ℚ) : Option AbstractValue :=
  match sklearnRouteIndex st.nodes x fuel 0 with
  | none => none
  | some i =>
    match pyGet st.values i with
    | none => none
    | some tv => (buildValue task tv).toOption

/-- The feature names referenced by the split conditions of a subtree. -/
def usedFeatureNames : AbstractNode → List (List Nat)
  | .LeafNode _ => []
  | .NonLeafNode cond pos none => cond.feature.name :: usedFeatureNames pos
  | .NonLeafNode cond pos (some neg) =>
    cond.feature.name :: (usedFeatureNames pos ++ usedFeatureNames neg)

/-- The feature column indices referenced by the split conditions of a
subtree. -/
def usedColIndices : AbstractNode → List Int
  | .LeafNode _ => []
  | .NonLeafNode cond pos none => cond.feature.col_idx :: usedColIndices pos
  | .NonLeafNode cond pos (some neg) =>
    cond.feature.col_idx :: (usedColIndices pos ++ usedColIndices neg)

/-- Modelled from the spec: invoking the loaded TFDF model on a dict of named
feature columns — each decision node looks its feature up by name (a missing
key is a fatal invocation error, `none`). -/
def routeByName (env : List Nat → Option ℚ) : AbstractNode → Option AbstractValue
  | .LeafNode v => some v
  | .NonLeafNode cond pos none =>
    match env cond.feature.name with
    | none => none
    | some fv => if cond.threshold < fv then routeByName env pos else none
  | .NonLeafNode cond pos (some neg) =>
    match env cond.feature.name with
    | none => none
    | some fv =>
      if cond.threshold < fv then routeByName env pos else routeByName env neg

/-- Modelled from the spec: the serving signature of the loaded model names
exactly the feature columns that appear in at least one split condition. -/
def signatureKeys (mdl : TfdfModel) : List (List Nat) :=
  match mdl.tree.root with
  | none => []
  | some root => usedFeatureNames root

/-- The wrapped keras model returned by `convert`: its declared dense input
width and the underlying TFDF model. -/
structure KerasModel where
  inputWidth : Nat
  tfdfModel : TfdfModel

/-- Modelled from the spec: calling the wrapped model on a dense row `x` —
keras enforces the declared input width, then the wrapper feeds the
underlying model the dict sending each signature key `nm` to column
`int(nm)` of `x` (`template_output = tfdf_model({i: template_input[:, int(i)]
for i in feature_indices})`). -/
def kerasPredict (km : KerasModel) (x : List ℚ) : Option AbstractValue :=
  if x.length = km.inputWidth then
    match km.tfdfModel.tree.root with
    | none => none
    | some root =>
      routeByName
        (fun nm =>
          if nm ∈ signatureKeys km.tfdfModel then some (featVal x (pyInt nm))
          else none)
        root
  else none

/-- The prediction of the unwrapped TFDF model when fed the full dense row. -/
def tfdfPredict (mdl : TfdfModel) (x : List ℚ) : Option AbstractValue :=
  match mdl.tree.root with
  | none => none
  | some root => routeAbstractNode x root

/-- A toy filesystem: an association list from directory name to the files it
holds (earlier entries shadow later ones). -/
abbrev FileSystem := List (String × List String)

/-- The directory names present in the filesystem. -/
def fsDirs (fs : FileSystem) : List String := fs.map Prod.fst

/-- Modelled from the spec: `tempfile.TemporaryDirectory()` creates a fresh
empty directory. -/
def fsMkdir (fs : FileSystem) (d : String) : FileSystem := (d, []) :: fs

/-- Modelled from the spec: the scoped teardown of `TemporaryDirectory`
removes the directory and all of its contents. -/
def fsRemoveDir (fs : FileSystem) (d : String) : FileSystem :=
  fs.filter (fun e => e.1 ≠ d)

/-- Modelled from the spec: `CARTBuilder.close()` persists the model artifact
into the target directory. -/
def fsWriteArtifacts (fs : FileSystem) (d : String) : FileSystem :=
  (d, ["model"]) :: fs

/-- `_build_tfdf_model` together with its filesystem effect: on success the
builder persists the model into `path`; on failure nothing is written. -/
def buildTfdfModelFS (fuel : Nat) (m : ScikitLearnModel) (path : String)
    (fs : FileSystem) : Option (Except PyError TfdfModel × FileSystem) :=
  match buildTfdfModel fuel m with
  | none => none
  | some (.error e) => some (.error e, fs)
  | some (.ok mdl) => some (.ok mdl, fsWriteArtifacts fs path)

/-- `convert`: when the caller passes no path (or a falsy empty one), a fresh
temporary directory named `tmpname` is created, the build runs inside the
`with` block, and the directory is torn down when the block exits — whether
the build returned or raised; when the caller passes a path it is used as-is
under a `nullcontext`. The wrapped model records the declared input width
`n_features_in_`. `none` = the call does not return. -/
def convert (fuel : Nat) (m : ScikitLearnModel)
    (intermediate_write_path : Option String) (fs : FileSystem)
    (tmpname : String) : Option (Except PyError KerasModel × FileSystem) :=
  if intermediate_write_path = none ∨ intermediate_write_path = some "" then
    match buildTfdfModelFS fuel m tmpname (fsMkdir fs tmpname) with
    | none => none
    | some (.error e, fs2) => some (.error e, fsRemoveDir fs2 tmpname)
    | some (.ok mdl, fs2) =>
      some (.ok ⟨m.n_features_in_, mdl⟩, fsRemoveDir fs2 tmpname)
  else
    match intermediate_write_path with
    | none => none
    | some p =>
      match buildTfdfModelFS fuel m p fs with
      | none => none
      | some (.error e, fs2) => some (.error e, fs2)
      | some (.ok mdl, fs2) => some (.ok ⟨m.n_features_in_, mdl⟩, fs2)

/-- Every child index of the array is `-1` or a valid (nonnegative, in-range)
index. -/
def validChildIndices (nodes : List PyNode) : Bool :=
  nodes.all fun nd =>
    (decide (nd.left_child = -1) ||
      (decide (0 ≤ nd.left_child) && decide (nd.left_child < (nodes.length : Int)))) &&
    (decide (nd.right_child = -1) ||
      (decide (0 ≤ nd.right_child) && decide (nd.right_child < (nodes.length : Int))))

/-- The source-encoding invariant: a node misses its left child iff it misses
its right child (stated over any record type with the two child fields). -/
def leafConsistentOn (left right : α → Int) (nodes : List α) : Bool :=
  nodes.all fun nd => decide (left nd = -1) == decide (right nd = -1)

/-- Internal (non-leaf) nodes carry a nonnegative split feature id. -/
def internalFeaturesNonnegOn (left feature : α → Int) (nodes : List α) : Bool :=
  nodes.all fun nd => decide (left nd = -1) || decide (0 ≤ feature nd)

/-- Every condition of the subtree references a nonnegative column index
whose name is its stringification — true of every tree the converter emits
from a well-formed array. -/
def condsOk : AbstractNode → Bool
  | .LeafNode _ => true
  | .NonLeafNode cond pos none =>
    decide (0 ≤ cond.feature.col_idx) &&
    decide (cond.feature.name = pyStr cond.feature.col_idx) && condsOk pos
  | .NonLeafNode cond pos (some neg) =>
    decide (0 ≤ cond.feature.col_idx) &&
    decide (cond.feature.name = pyStr cond.feature.col_idx) &&
    condsOk pos && condsOk neg

/-- The values carried by the leaves of a subtree. -/
def leafValues : AbstractNode → List AbstractValue
  | .LeafNode v => [v]
  | .NonLeafNode _ pos none => leafValues pos
  | .NonLeafNode _ pos (some neg) => leafValues pos ++ leafValues neg

/-- `j` is the index of a real child (not the `-1` sentinel) of the node at
index `i`. -/
def ChildIndex (nodes : List PyNode) (i j : Int) : Prop :=
  ∃ nd, pyGet nodes i = some nd ∧ (nd.left_child = j ∨ nd.right_child = j) ∧ j ≠ -1

/-- `d` is a strict descendant of `a` along child indices. -/
def Descendant (nodes : List PyNode) (d a : Int) : Prop :=
  Relation.TransGen (fun v u => ChildIndex nodes u v) d a

/-- The flat array describes a tree: no node is its own strict ancestor. -/
def NoSelfAncestor (nodes : List PyNode) : Prop :=
  ∀ i : Int, ¬ Descendant nodes i i

/-- The node dicts built by the conversion agree with the source records on
every structural field, position by position. -/
def StructCorresp (pyNodes : List PyNode) (src : List SklearnNodeRecord) : Prop :=
  pyNodes.length = src.length ∧
  ∀ (k : Nat) (nd : PyNode), pyNodes[k]? = some nd →
    ∃ nr, src[k]? = some nr ∧ nd.left_child = nr.left_child ∧
      nd.right_child = nr.right_child ∧ nd.feature = nr.feature ∧
      nd.threshold = nr.threshold

/-- Each node dict carries the value built from the statistics stored at the
same position of the `values` array. -/
def ValueCorresp (task : TaskType) (pyNodes : List PyNode)
    (values : List (List (List ℚ))) : Prop :=
  pyNodes.length = values.length ∧
  ∀ (k : Nat) (nd : PyNode), pyNodes[k]? = some nd →
    ∃ tv, values[k]? = some tv ∧ buildValue task tv = .ok nd.value

/-- The first-output count row is componentwise nonnegative with a positive
sum. -/
def countsOkRow (row : List ℚ) : Bool :=
  row.all (fun c => decide (0 ≤ c)) && decide (0 < row.sum)

/-- Every node's statistics expose a first-output count row that is
nonnegative with a positive sum (the spec's fitted-tree precondition). -/
def countsOk (values : List (List (List ℚ))) : Bool :=
  values.all fun tv =>
    match pyGet tv 0 with
    | some row => countsOkRow row
    | none => true

/-- The column indices split on anywhere in the model's tree. -/
def modelUsedColIndices (mdl : TfdfModel) : List Int :=
  match mdl.tree.root with
  | none => []
  | some root => usedColIndices root

/-- Each node's real children sit at strictly larger positions of the array —
the order in which sklearn lays out its nodes; a decidable sufficient
condition for `NoSelfAncestor`. -/
def childrenIncrease (nodes : List PyNode) : Bool :=
  (List.range nodes.length).all fun k =>
    match nodes[k]? with
    | none => true
    | some nd =>
      (decide (nd.left_child = -1) || decide ((k : Int) < nd.left_child)) &&
      (decide (nd.right_child = -1) || decide ((k : Int) < nd.right_child))

/-- A hand-built fitted regression tree: the root splits feature 0 at
threshold 1; the left leaf holds the mean 5, the right leaf the mean 20. -/
def regTreeState : SklearnTreeState :=
  { nodes := [⟨1, 2, 0, 1⟩, ⟨-1, -1, -2, -2⟩, ⟨-1, -1, -2, -2⟩]
    values := [[[10]], [[5]], [[20]]] }

/-- A fitted `DecisionTreeRegressor` over the hand-built tree, declaring
three input features of which only feature 0 is split on. -/
def regModel : ScikitLearnModel :=
  { modelType := .DecisionTreeRegressor
    tree_ := some regTreeState
    n_outputs_ := 1
    n_classes_ := none
    classes_ := none
    n_features_in_ := 3 }

/-- A hand-built fitted classification tree with the same shape: per-class
counts [2, 0] on the left leaf and [0, 2] on the right leaf. -/
def clsTreeState : SklearnTreeState :=
  { nodes := [⟨1, 2, 0, 1⟩, ⟨-1, -1, -2, -2⟩, ⟨-1, -1, -2, -2⟩]
    values := [[[2, 2]], [[2, 0]], [[0, 2]]] }

/-- A fitted `DecisionTreeClassifier` over the hand-built tree. -/
def clsModel : ScikitLearnModel :=
  { modelType := .DecisionTreeClassifier
    tree_ := some clsTreeState
    n_outputs_ := 1
    n_classes_ := some 2
    classes_ := some ["0", "1"]
    n_features_in_ := 3 }

/-- A `DecisionTreeRegressor` that was never fit (no `tree_` state). -/
def unfittedModel : ScikitLearnModel :=
  { modelType := .DecisionTreeRegressor
    tree_ := none
    n_outputs_ := 1
    n_classes_ := none
    classes_ := none
    n_features_in_ := 1 }

/-- A `DecisionTreeClassifier` that was never fit: neither `tree_` nor
`n_classes_` nor `classes_` exist yet. -/
def unfittedClsModel : ScikitLearnModel :=
  { modelType := .DecisionTreeClassifier
    tree_ := none
    n_outputs_ := 1
    n_classes_ := none
    classes_ := none
    n_features_in_ := 1 }

/-- A fitted multi-output regressor (`n_outputs_ = 2`): task type UNKNOWN. -/
def multiOutputModel : ScikitLearnModel :=
  { modelType := .DecisionTreeRegressor
    tree_ := some regTreeState
    n_outputs_ := 2
    n_classes_ := none
    classes_ := none
    n_features_in_ := 3 }

/-- An estimator of an unsupported subtype. -/
def linearModel : ScikitLearnModel :=
  { modelType := .OtherModel "LinearRegression"
    tree_ := none
    n_outputs_ := 1
    n_classes_ := none
    classes_ := none
    n_features_in_ := 1 }

/-- The root node dict the conversion builds for `regModel`. -/
def regPyNode0 : PyNode := ⟨1, 2, 0, 1, .RegressionValue 10⟩

/-- The node dicts the conversion builds for `regModel`. -/
def regPyNodes : List PyNode :=
  [regPyNode0,
   ⟨-1, -1, -2, -2, .RegressionValue 5⟩,
   ⟨-1, -1, -2, -2, .RegressionValue 20⟩]

/-- The tree the converter emits from `regModel`: positive child = right
(mean 20), negative child = left (mean 5). -/
def regTree0 : AbstractNode :=
  .NonLeafNode ⟨⟨pyStr 0, .NUMERICAL, 0⟩, 1, false⟩
    (.LeafNode (.RegressionValue 20)) (some (.LeafNode (.RegressionValue 5)))

/-- The tree the converter emits from `clsModel`: counts normalised to
probability vectors ([0, 1] on the positive leaf and [1, 0] on the negative
leaf; the divisions are kept unevaluated because rational arithmetic does not
reduce definitionally). -/
def clsTree0 : AbstractNode :=
  .NonLeafNode ⟨⟨pyStr 0, .NUMERICAL, 0⟩, 1, false⟩
    (.LeafNode (.ProbabilityValue
      (List.map (fun c => c / ([0, 2] : List ℚ).sum) [0, 2])))
    (some (.LeafNode (.ProbabilityValue
      (List.map (fun c => c / ([2, 0] : List ℚ).sum) [2, 0]))))

/-- The wrapped keras model `convert` returns for `regModel`. -/
def regKeras : KerasModel :=
  ⟨3, ⟨.RegressionObjective "label", ⟨some regTree0⟩⟩⟩

/-! ### Helper lemmas -/

theorem pyGet_nonneg {l : List α} {i : Int} (h : 0 ≤ i) :
    pyGet l i = l[i.toNat]? := by
  simp [pyGet, h]

theorem pyGet_mem {l : List α} {i : Int} {a : α} (h : pyGet l i = some a) :
    a ∈ l := by
  unfold pyGet at h
  split at h
  · exact List.getElem?_mem h
  · split at h
    · exact List.getElem?_mem h
    · cases h

theorem pyGet_eq_some_of_lt {l : List α} {i : Int} (h0 : 0 ≤ i)
    (h1 : i < l.length) : ∃ a, pyGet l i = some a := by
  rw [pyGet_nonneg h0]
  have hlt : i.toNat < l.length := by omega
  exact ⟨l[i.toNat], List.getElem?_eq_getElem hlt⟩

theorem ofDigits_natDigitsAux :
    ∀ (fuel n : Nat), n ≤ fuel → Nat.ofDigits 10 (natDigitsAux fuel n) = n := by
  intro fuel
  induction fuel with
  | zero =>
    intro n hn
    have : n = 0 := by omega
    simp [natDigitsAux, this]
  | succ f ih =>
    intro n hn
    by_cases h0 : n = 0
    · simp [natDigitsAux, h0]
    · have hpos : 0 < n := Nat.pos_of_ne_zero h0
      have hdiv : n / 10 < n := Nat.div_lt_self hpos (by norm_num)
      have hd : n / 10 ≤ f := by omega
      rw [natDigitsAux]
      simp only [h0, if_false]
      rw [Nat.ofDigits_cons, ih _ hd]
      omega

theorem pyInt_pyStr {i : Int} (h : 0 ≤ i) : pyInt (pyStr i) = i := by
  unfold pyInt pyStr
  rw [ofDigits_natDigitsAux _ _ (Nat.le_succ _)]
  omega

theorem sum_map_div (l : List ℚ) (s : ℚ) :
    (l.map (fun c => c / s)).sum = l.sum / s := by
  induction l with
  | nil => simp
  | cons a l ih => simp [ih, add_div]

theorem convertNode_mono {nodes : List PyNode} :
    ∀ {f f' : Nat}, f ≤ f' → ∀ {i : Int} {r},
      convertSklearnNodeToTfdfNode nodes f i = some r →
      convertSklearnNodeToTfdfNode nodes f' i = some r := by
  intro f
  induction f with
  | zero =>
    intro f' _ i r h
    simp [convertSklearnNodeToTfdfNode] at h
  | succ f ih =>
    intro f' hf i r h
    obtain ⟨f'', rfl⟩ : ∃ f'', f' = f'' + 1 := ⟨f' - 1, by omega⟩
    have hff : f ≤ f'' := by omega
    rw [convertSklearnNodeToTfdfNode] at h ⊢
    by_cases hi : i = -1
    · simpa [hi] using h
    · simp only [hi, if_false] at h ⊢
      cases hget : pyGet nodes i with
      | none => simpa [hget] using h
      | some node =>
        simp only [hget] at h ⊢
        cases hL : convertSklearnNodeToTfdfNode nodes f node.left_child with
        | none => simp [hL] at h
        | some rl =>
          rw [hL] at h
          rw [ih hff hL]
          cases rl with
          | error e => simpa using h
          | ok neg_child =>
            simp only at h ⊢
            cases hR : convertSklearnNodeToTfdfNode nodes f node.right_child with
            | none => simp [hR] at h
            | some rr =>
              rw [hR] at h
              rw [ih hff hR]
              exact h

theorem convertNode_neg_one_not_node {nodes : List PyNode} {f : Nat}
    {t : AbstractNode} :
    convertSklearnNodeToTfdfNode nodes f (-1) ≠ some (.ok (some t)) := by
  cases f with
  | zero => simp [convertSklearnNodeToTfdfNode]
  | succ f => simp [convertSklearnNodeToTfdfNode]

theorem convertNode_ok_none {nodes : List PyNode} {f : Nat} {i : Int}
    (h : convertSklearnNodeToTfdfNode nodes f i = some (.ok none)) :
    i = -1 := by
  cases f with
  | zero => simp [convertSklearnNodeToTfdfNode] at h
  | succ f =>
    by_cases hi : i = -1
    · exact hi
    · exfalso
      rw [convertSklearnNodeToTfdfNode] at h
      simp only [hi, if_false] at h
      cases hget : pyGet nodes i with
      | none => simp [hget] at h
      | some node =>
        simp only [hget] at h
        cases hL : convertSklearnNodeToTfdfNode nodes f node.left_child with
        | none => simp [hL] at h
        | some rl =>
          rw [hL] at h
          cases rl with
          | error e => simp at h
          | ok neg_child =>
            simp only at h
            cases hR : convertSklearnNodeToTfdfNode nodes f node.right_child with
            | none => simp [hR] at h
            | some rr =>
              rw [hR] at h
              cases rr with
              | error e => simp at h
              | ok pos_child =>
                cases pos_child <;> simp at h

theorem zip_getElem?_eq_some :
    ∀ (l1 : List α) (l2 : List β) (k : Nat) {p : α × β},
      (l1.zip l2)[k]? = some p → l1[k]? = some p.1 ∧ l2[k]? = some p.2 := by
  intro l1
  induction l1 with
  | nil => intro l2 k p h; simp at h
  | cons a l1 ih =>
    intro l2 k p h
    cases l2 with
    | nil => simp at h
    | cons b l2 =>
      cases k with
      | zero =>
        simp only [List.zip_cons_cons, List.getElem?_cons_zero, Option.some_inj] at h
        subst h
        exact ⟨by simp, by simp⟩
      | succ k =>
        simp only [List.zip_cons_cons, List.getElem?_cons_succ] at h ⊢
        exact ih l2 k h

theorem buildNodes_spec {task : TaskType} :
    ∀ {l : List (SklearnNodeRecord × List (List ℚ))} {ns : List PyNode},
      buildNodes task l = .ok ns →
      ns.length = l.length ∧
      ∀ (k : Nat) (nd : PyNode), ns[k]? = some nd →
        ∃ p, l[k]? = some p ∧ nd.left_child = p.1.left_child ∧
          nd.right_child = p.1.right_child ∧ nd.feature = p.1.feature ∧
          nd.threshold = p.1.threshold ∧ buildValue task p.2 = .ok nd.value := by
  intro l
  induction l with
  | nil =>
    intro ns h
    simp only [buildNodes] at h
    cases h
    exact ⟨rfl, by intro k nd h; simp at h⟩
  | cons p rest ih =>
    intro ns h
    obtain ⟨nr, tv⟩ := p
    rw [buildNodes] at h
    cases hv : buildValue task tv with
    | error e => rw [hv] at h; cases h
    | ok v =>
      rw [hv] at h
      cases hrest : buildNodes task rest with
      | error e => rw [hrest] at h; cases h
      | ok ns' =>
        rw [hrest] at h
        cases h
        obtain ⟨hlen, hpt⟩ := ih hrest
        refine ⟨by simp [hlen], ?_⟩
        intro k nd hk
        cases k with
        | zero =>
          simp only [List.getElem?_cons_zero, Option.some_inj] at hk
          subst hk
          exact ⟨(nr, tv), by simp, rfl, rfl, rfl, rfl, hv⟩
        | succ k =>
          simp only [List.getElem?_cons_succ] at hk ⊢
          exact hpt k nd hk

theorem corresp_pyGet {l1 : List α} {l2 : List β}
    (hlen : l1.length = l2.length) (P : α → β → Prop)
    (hpt : ∀ (k : Nat) (a : α), l1[k]? = some a → ∃ b, l2[k]? = some b ∧ P a b)
    {i : Int} {a : α} (h : pyGet l1 i = some a) :
    ∃ b, pyGet l2 i = some b ∧ P a b := by
  have hlen' : (l1.length : Int) = l2.length := by exact_mod_cast hlen
  unfold pyGet at h
  by_cases h0 : 0 ≤ i
  · simp only [h0, if_true] at h
    obtain ⟨b, hb, hP⟩ := hpt _ _ h
    exact ⟨b, by rw [pyGet_nonneg h0]; exact hb, hP⟩
  · simp only [h0, if_false] at h
    by_cases h1 : 0 ≤ i + (l1.length : Int)
    · simp only [h1, if_true] at h
      obtain ⟨b, hb, hP⟩ := hpt _ _ h
      refine ⟨b, ?_, hP⟩
      unfold pyGet
      rw [if_neg h0, if_pos (by omega)]
      have : (i + (l2.length : Int)).toNat = (i + (l1.length : Int)).toNat := by omega
      rw [this]
      exact hb
    · simp only [h1, if_false] at h
      cases h

theorem structCorresp_pyGet {pyNodes : List PyNode} {src : List SklearnNodeRecord}
    (hcor : StructCorresp pyNodes src) {i : Int} {nd : PyNode}
    (h : pyGet pyNodes i = some nd) :
    ∃ nr, pyGet src i = some nr ∧ nd.left_child = nr.left_child ∧
      nd.right_child = nr.right_child ∧ nd.feature = nr.feature ∧
      nd.threshold = nr.threshold :=
  corresp_pyGet hcor.1
    (fun nd nr => nd.left_child = nr.left_child ∧ nd.right_child = nr.right_child ∧
      nd.feature = nr.feature ∧ nd.threshold = nr.threshold)
    (fun k nd hk => by
      obtain ⟨nr, hnr, hf⟩ := hcor.2 k nd hk
      exact ⟨nr, hnr, hf⟩) h

theorem valueCorresp_pyGet {task : TaskType} {pyNodes : List PyNode}
    {values : List (List (List ℚ))}
    (hcor : ValueCorresp task pyNodes values) {i : Int} {nd : PyNode}
    (h : pyGet pyNodes i = some nd) :
    ∃ tv, pyGet values i = some tv ∧ buildValue task tv = .ok nd.value :=
  corresp_pyGet hcor.1 (fun nd tv => buildValue task tv = .ok nd.value)
    (fun k nd hk => hcor.2 k nd hk) h

theorem buildNodes_corresp {task : TaskType} {st : SklearnTreeState}
    {pyNodes : List PyNode}
    (hval : st.values.length = st.nodes.length)
    (h : buildNodes task (st.nodes.zip st.values) = .ok pyNodes) :
    StructCorresp pyNodes st.nodes ∧ ValueCorresp task pyNodes st.values := by
  obtain ⟨hlen, hpt⟩ := buildNodes_spec h
  have hzlen : (st.nodes.zip st.values).length = st.nodes.length := by
    simp [List.length_zip, hval]
  constructor
  · refine ⟨by omega, ?_⟩
    intro k nd hk
    obtain ⟨p, hp, h1, h2, h3, h4, _⟩ := hpt k nd hk
    obtain ⟨hp1, _⟩ := zip_getElem?_eq_some _ _ k hp
    exact ⟨p.1, hp1, h1, h2, h3, h4⟩
  · refine ⟨by omega, ?_⟩
    intro k nd hk
    obtain ⟨p, hp, _, _, _, _, h5⟩ := hpt k nd hk
    obtain ⟨_, hp2⟩ := zip_getElem?_eq_some _ _ k hp
    exact ⟨p.2, hp2, h5⟩

theorem all_transfer {pyNodes : List PyNode} {src : List SklearnNodeRecord}
    (hcor : StructCorresp pyNodes src) (p : Int → Int → Int → Bool)
    (h : (src.all fun nd => p nd.left_child nd.right_child nd.feature) = true) :
    (pyNodes.all fun nd => p nd.left_child nd.right_child nd.feature) = true := by
  rw [List.all_eq_true] at h ⊢
  intro nd hnd
  obtain ⟨k, hk⟩ := List.mem_iff_getElem?.mp hnd
  obtain ⟨nr, hnr, h1, h2, h3, _⟩ := hcor.2 k nd hk
  have := h nr (List.getElem?_mem hnr)
  simpa [h1, h2, h3] using this

theorem convertNode_route {pyNodes : List PyNode} {src : List SklearnNodeRecord}
    (hcor : StructCorresp pyNodes src)
    (hleaf : leafConsistentOn (fun nd => nd.left_child)
      (fun nd => nd.right_child) pyNodes = true) :
    ∀ (f : Nat) (i : Int) (t : AbstractNode),
      convertSklearnNodeToTfdfNode pyNodes f i = some (.ok (some t)) →
      ∀ x : List ℚ, ∃ (j : Int) (nd : PyNode),
        sklearnRouteIndex src x f i = some j ∧ pyGet pyNodes j = some nd ∧
        nd.left_child = -1 ∧ routeAbstractNode x t = some nd.value := by
  intro f
  induction f with
  | zero => intro i t h; simp [convertSklearnNodeToTfdfNode] at h
  | succ f ih =>
    intro i t h x
    by_cases hi : i = -1
    · subst hi; exact absurd h convertNode_neg_one_not_node
    · rw [convertSklearnNodeToTfdfNode] at h
      simp only [hi, if_false] at h
      cases hget : pyGet pyNodes i with
      | none => simp [hget] at h
      | some node =>
        simp only [hget] at h
        cases hL : convertSklearnNodeToTfdfNode pyNodes f node.left_child with
        | none => simp [hL] at h
        | some rl =>
          rw [hL] at h
          cases rl with
          | error e => simp at h
          | ok neg_child =>
            simp only at h
            cases hR : convertSklearnNodeToTfdfNode pyNodes f node.right_child with
            | none => simp [hR] at h
            | some rr =>
              rw [hR] at h
              cases rr with
              | error e => simp at h
              | ok pos_child =>
                obtain ⟨nr, hnr, e1, e2, e3, e4⟩ := structCorresp_pyGet hcor hget
                have hlc := (List.all_eq_true.mp hleaf) node (pyGet_mem hget)
                cases pos_child with
                | none =>
                  have hr1 : node.right_child = -1 := convertNode_ok_none hR
                  have hl1 : node.left_child = -1 := by
                    simp only [hr1] at hlc
                    simpa using hlc
                  obtain rfl : t = .LeafNode node.value := by
                    simp only [Option.some_inj] at h
                    cases h
                    rfl
                  refine ⟨i, node, ?_, hget, hl1, rfl⟩
                  rw [sklearnRouteIndex]
                  simp only [hnr]
                  rw [if_pos (by rw [← e1]; exact hl1)]
                | some pc =>
                  have hr1 : node.right_child ≠ -1 := by
                    intro hr
                    rw [hr] at hR
                    exact convertNode_neg_one_not_node hR
                  have hl1 : node.left_child ≠ -1 := by
                    intro hl
                    simp [hl, decide_eq_true_eq] at hlc
                    exact hr1 hlc
                  cases neg_child with
                  | none => exact absurd (convertNode_ok_none hL) hl1
                  | some nt =>
                    obtain rfl : t = .NonLeafNode
                        ⟨⟨pyStr node.feature, .NUMERICAL, node.feature⟩,
                          node.threshold, false⟩ pc (some nt) := by
                      simp only [Option.some_inj] at h
                      cases h
                      rfl
                    by_cases hc : node.threshold < featVal x node.feature
                    · obtain ⟨j, nd, hj, hnd, hndl, hroute⟩ :=
                        ih node.right_child pc hR x
                      refine ⟨j, nd, ?_, hnd, hndl, ?_⟩
                      · rw [sklearnRouteIndex]
                        simp only [hnr]
                        rw [if_neg (by rw [← e1]; exact hl1),
                          if_pos (by rw [← e3, ← e4]; exact hc), ← e2]
                        exact hj
                      · simp only [routeAbstractNode]
                        rw [if_pos hc]
                        exact hroute
                    · obtain ⟨j, nd, hj, hnd, hndl, hroute⟩ :=
                        ih node.left_child nt hL x
                      refine ⟨j, nd, ?_, hnd, hndl, ?_⟩
                      · rw [sklearnRouteIndex]
                        simp only [hnr]
                        rw [if_neg (by rw [← e1]; exact hl1),
                          if_neg (by rw [← e3, ← e4]; exact hc), ← e1]
                        exact hj
                      · simp only [routeAbstractNode]
                        rw [if_neg hc]
                        exact hroute

theorem leafConsistent_transfer {pyNodes : List PyNode}
    {src : List SklearnNodeRecord} (hcor : StructCorresp pyNodes src)
    (h : leafConsistentOn (fun nd => nd.left_child) (fun nd => nd.right_child)
      src = true) :
    leafConsistentOn (fun nd => nd.left_child) (fun nd => nd.right_child)
      pyNodes = true :=
  all_transfer hcor (fun l r _ => decide (l = -1) == decide (r = -1)) h

theorem featNonneg_transfer {pyNodes : List PyNode}
    {src : List SklearnNodeRecord} (hcor : StructCorresp pyNodes src)
    (h : internalFeaturesNonnegOn (fun nd => nd.left_child) (fun nd => nd.feature)
      src = true) :
    internalFeaturesNonnegOn (fun nd => nd.left_child) (fun nd => nd.feature)
      pyNodes = true :=
  all_transfer hcor (fun l _ f => decide (l = -1) || decide (0 ≤ f)) h

theorem convertPytree_ok_inv {fuel : Nat} {m : ScikitLearnModel}
    {st : SklearnTreeState} {r : Option AbstractNode}
    (hst : m.tree_ = some st)
    (h : convertSklearnTreeToTfdfPytree fuel m = some (.ok ⟨r⟩)) :
    ∃ pyNodes,
      buildNodes (getSklearnTreeTaskType m) (st.nodes.zip st.values) = .ok pyNodes ∧
      convertSklearnNodeToTfdfNode pyNodes fuel 0 = some (.ok r) := by
  unfold convertSklearnTreeToTfdfPytree at h
  simp only [hst] at h
  cases hbn : buildNodes (getSklearnTreeTaskType m) (st.nodes.zip st.values) with
  | error e => simp only [hbn] at h; simp at h
  | ok pyNodes =>
    simp only [hbn] at h
    cases hcv : convertSklearnNodeToTfdfNode pyNodes fuel 0 with
    | none => simp only [hcv] at h; simp at h
    | some rr =>
      simp only [hcv] at h
      cases rr with
      | error e => simp at h
      | ok root =>
        simp only [Option.some_inj, Except.ok.injEq, PyTree.mk.injEq] at h
        subst h
        exact ⟨pyNodes, rfl, hcv⟩

/-! ### The claims -/

/-- **C1**: for a fitted single-output tree estimator satisfying the source
encoding invariants (parallel `values` array, left child absent iff right
child absent), every input routed through the converted tree (positive child
iff feature strictly greater than threshold) reaches a leaf whose value is
exactly the source estimator's prediction obtained by flat-array routing
(left child iff not greater): the same scalar for regression and the same
probability vector (hence the same arg-max class) for classification —
equality is exact over `ℚ`. The source-side routing and prediction semantics
are modelled from the spec, as the sklearn inference code is not part of this
repository. -/
theorem converted_model_prediction_matches_source
    {fuel : Nat} {m : ScikitLearnModel} {st : SklearnTreeState}
    {t : AbstractNode}
    (hst : m.tree_ = some st)
    (hleaf : leafConsistentOn (fun nd => nd.left_child) (fun nd => nd.right_child)
      st.nodes = true)
    (hval : st.values.length = st.nodes.length)
    (hconv : convertSklearnTreeToTfdfPytree fuel m = some (.ok ⟨some t⟩)) :
    ∀ x : List ℚ, ∃ v, routeAbstractNode x t = some v ∧
      sklearnPredict fuel st (getSklearnTreeTaskType m) x = some v := by
  intro x
  obtain ⟨pyNodes, hbn, hcv⟩ := convertPytree_ok_inv hst hconv
  obtain ⟨hsc, hvc⟩ := buildNodes_corresp hval hbn
  have hleaf' := leafConsistent_transfer hsc hleaf
  obtain ⟨j, nd, hj, hnd, hndl, hroute⟩ := convertNode_route hsc hleaf' fuel 0 t hcv x
  obtain ⟨tv, htv, hbv⟩ := valueCorresp_pyGet hvc hnd
  refine ⟨nd.value, hroute, ?_⟩
  unfold sklearnPredict
  simp only [hj, htv, hbv]
  rfl

/-- Witness for C1: the hand-built regression estimator at input
`[0, 7, 7]`, which routes to the negative leaf with mean 5 on both sides. -/
theorem converted_model_prediction_matches_source_witness :
    ∃ v, routeAbstractNode [0, 7, 7] regTree0 = some v ∧
      sklearnPredict 3 regTreeState (getSklearnTreeTaskType regModel) [0, 7, 7]
        = some v :=
  @converted_model_prediction_matches_source 3 regModel regTreeState regTree0
    rfl (by decide) (by decide) rfl [0, 7, 7]

/-- **C2**: one-step behaviour of the recursive structural conversion, for
any well-formed flat node array and any node index: index `-1` produces no
node; otherwise the left-child subtree becomes the negative branch and the
right-child subtree the positive branch; when the positive subtree exists a
decision node is emitted whose condition is "feature strictly greater than
threshold" with `missing_evaluation = false` (missing routes to the negative
child) and children (positive, negative); otherwise a leaf carrying the
node's precomputed value is emitted. -/
theorem convertNode_structural_behavior (nodes : List PyNode) (fuel : Nat) :
    convertSklearnNodeToTfdfNode nodes (fuel + 1) (-1) = some (.ok none) ∧
    ∀ (i : Int) (node : PyNode), i ≠ -1 → pyGet nodes i = some node →
      (∀ neg pc,
        convertSklearnNodeToTfdfNode nodes fuel node.left_child = some (.ok neg) →
        convertSklearnNodeToTfdfNode nodes fuel node.right_child
          = some (.ok (some pc)) →
        convertSklearnNodeToTfdfNode nodes (fuel + 1) i =
          some (.ok (some (.NonLeafNode
            ⟨⟨pyStr node.feature, .NUMERICAL, node.feature⟩, node.threshold, false⟩
            pc neg)))) ∧
      (∀ neg,
        convertSklearnNodeToTfdfNode nodes fuel node.left_child = some (.ok neg) →
        convertSklearnNodeToTfdfNode nodes fuel node.right_child
          = some (.ok none) →
        convertSklearnNodeToTfdfNode nodes (fuel + 1) i =
          some (.ok (some (.LeafNode node.value)))) := by
  refine ⟨by rw [convertSklearnNodeToTfdfNode]; simp, ?_⟩
  intro i node hi hget
  constructor
  · intro neg pc hL hR
    rw [convertSklearnNodeToTfdfNode]
    simp [hi, hget, hL, hR]
  · intro neg hL hR
    rw [convertSklearnNodeToTfdfNode]
    simp [hi, hget, hL, hR]

/-- Witness for C2: the hand-built regression array — converting its root
with the already-converted leaf children yields the expected decision node. -/
theorem convertNode_structural_behavior_witness :
    convertSklearnNodeToTfdfNode regPyNodes 3 0 = some (.ok (some regTree0)) :=
  ((convertNode_structural_behavior regPyNodes 2).2 0 regPyNode0 (by decide)
      rfl).1
    (some (.LeafNode (.RegressionValue 5))) (.LeafNode (.RegressionValue 20))
    rfl rfl

/-- **C3**: task-type resolution returns single-label classification iff the
estimator declares exactly one output and carries an `n_classes_` attribute,
scalar regression iff it declares exactly one output without the attribute,
and unknown exactly for any other output arity. -/
theorem task_type_resolution (m : ScikitLearnModel) :
    (getSklearnTreeTaskType m = .SINGLE_LABEL_CLASSIFICATION ↔
      m.n_outputs_ = 1 ∧ m.n_classes_.isSome = true) ∧
    (getSklearnTreeTaskType m = .SCALAR_REGRESSION ↔
      m.n_outputs_ = 1 ∧ m.n_classes_.isSome = false) ∧
    (getSklearnTreeTaskType m = .UNKNOWN ↔ m.n_outputs_ ≠ 1) := by
  unfold getSklearnTreeTaskType
  by_cases h1 : m.n_classes_.isSome = true ∧ m.n_outputs_ = 1
  · simp [h1, h1.1, h1.2]
  · by_cases h2 : m.n_outputs_ = 1
    · have h3 : m.n_classes_.isSome = false := by
        cases hO : m.n_classes_.isSome
        · rfl
        · exact absurd ⟨hO, h2⟩ h1
      simp [h1, h2, h3]
    · simp [h1, h2]

/-- **C5**: a fitted estimator whose resolved task type is UNKNOWN is
rejected with the explicit `ValueError` — for every fuel value, `0` included,
so the failure precedes any structural node conversion. -/
theorem unknown_task_rejected {m : ScikitLearnModel} {st : SklearnTreeState}
    (hst : m.tree_ = some st) (hn : st.nodes ≠ []) (hv : st.values ≠ [])
    (htask : getSklearnTreeTaskType m = .UNKNOWN) :
    ∀ fuel, convertSklearnTreeToTfdfPytree fuel m =
      some (.error (.ValueError
        "Only scalar regression and single-label classification are supported.")) := by
  intro fuel
  unfold convertSklearnTreeToTfdfPytree
  simp only [hst]
  obtain ⟨n, ns, hns⟩ := List.exists_cons_of_ne_nil hn
  obtain ⟨v, vs, hvs⟩ := List.exists_cons_of_ne_nil hv
  rw [hns, hvs, htask]
  simp [buildNodes, buildValue]

/-- Witness for C5: the fitted two-output regressor is rejected even with
fuel `0`, before any node conversion could run. -/
theorem unknown_task_rejected_witness :
    convertSklearnTreeToTfdfPytree 0 multiOutputModel =
      some (.error (.ValueError
        "Only scalar regression and single-label classification are supported.")) :=
  @unknown_task_rejected multiOutputModel regTreeState rfl (by decide)
    (by decide) (by decide) 0

/-- Counterexample to C6 as stated: a never-fit `DecisionTreeClassifier` is
rejected with the `AttributeError` raised while the classification objective
reads the absent `classes_` attribute (source line 124, before the guarded
`tree_` access of `_convert_sklearn_tree_to_tfdf_pytree`), not with the
untrained-model `ValueError` the claim promises for every supported
subtype. -/
theorem unfitted_classifier_attribute_error :
    buildTfdfModel 0 unfittedClsModel = some (.error .AttributeError) ∧
    buildTfdfModel 0 unfittedClsModel ≠
      some (.error (.ValueError
        "Scikit-Learn model must be fit to data before converting.")) := by
  have hAttr : buildTfdfModel 0 unfittedClsModel =
      some (.error .AttributeError) := rfl
  refine ⟨hAttr, fun h => ?_⟩
  have h2 := hAttr.symm.trans h
  simp at h2

/-- **C6** (amended): an estimator of a supported subtype that was never fit
is rejected before any conversion attempt, but the error depends on the
path — the regression subtypes fail with the untrained-model `ValueError`
from the guarded `tree_` access, while the classification subtypes fail
even earlier with an `AttributeError` because the objective reads the absent
`classes_` attribute before the fitted-tree check; in both cases for every
fuel value, `0` included. -/
theorem unfitted_model_rejected {m : ScikitLearnModel}
    (hfit : m.tree_ = none) :
    (m.modelType = .DecisionTreeRegressor ∨
        m.modelType = .ExtraTreeRegressor →
      ∀ fuel, buildTfdfModel fuel m =
        some (.error (.ValueError
          "Scikit-Learn model must be fit to data before converting."))) ∧
    (m.modelType = .DecisionTreeClassifier ∨
        m.modelType = .ExtraTreeClassifier →
      m.classes_ = none →
      ∀ fuel, buildTfdfModel fuel m = some (.error .AttributeError)) := by
  constructor
  · intro hsup fuel
    have hpy : convertSklearnTreeToTfdfPytree fuel m =
        some (.error (.ValueError
          "Scikit-Learn model must be fit to data before converting.")) := by
      unfold convertSklearnTreeToTfdfPytree
      rw [hfit]
    unfold buildTfdfModel buildTfdfModelRegression
    rcases hsup with h | h <;> rw [h] <;> simp [hpy]
  · intro hsup hcls fuel
    unfold buildTfdfModel buildTfdfModelClassification
    rcases hsup with h | h <;> rw [h] <;> simp [hcls]

/-- Witness for C6: the never-fit regressor gets the untrained-model
`ValueError`, the never-fit classifier the `AttributeError`, both already at
fuel `0`. -/
theorem unfitted_model_rejected_witness :
    buildTfdfModel 0 unfittedModel =
      some (.error (.ValueError
        "Scikit-Learn model must be fit to data before converting.")) ∧
    buildTfdfModel 0 unfittedClsModel = some (.error .AttributeError) :=
  ⟨(@unfitted_model_rejected unfittedModel rfl).1 (Or.inl rfl) 0,
    (@unfitted_model_rejected unfittedClsModel rfl).2 (Or.inl rfl) rfl 0⟩

/-- **C7**: dispatch is a closed switch over exactly four supported estimator
subtypes — the two regression-tree subtypes go to the regression path (whose
successful result carries the regression objective with the placeholder
label), the two classification-tree subtypes to the classification path
(whose successful result carries the classification objective with the
stringified class list) — and every other subtype fails with the explicit
`NotImplementedError` naming the offending type. -/
theorem dispatch_closed_switch (fuel : Nat) (m : ScikitLearnModel) :
    (m.modelType = .DecisionTreeRegressor ∨ m.modelType = .ExtraTreeRegressor →
      buildTfdfModel fuel m = buildTfdfModelRegression fuel m ∧
      ∀ mdl, buildTfdfModelRegression fuel m = some (.ok mdl) →
        mdl.objective = .RegressionObjective "label") ∧
    (m.modelType = .DecisionTreeClassifier ∨
        m.modelType = .ExtraTreeClassifier →
      buildTfdfModel fuel m = buildTfdfModelClassification fuel m ∧
      ∀ mdl, buildTfdfModelClassification fuel m = some (.ok mdl) →
        ∃ cls, m.classes_ = some cls ∧
          mdl.objective = .ClassificationObjective "label" cls) ∧
    ∀ tn, m.modelType = .OtherModel tn →
      buildTfdfModel fuel m = some (.error (.NotImplementedError
        ("Can’t build a TFDF model for " ++ tn))) := by
  refine ⟨?_, ?_, ?_⟩
  · intro h
    refine ⟨by unfold buildTfdfModel; rcases h with h | h <;> rw [h], ?_⟩
    intro mdl hmdl
    unfold buildTfdfModelRegression at hmdl
    cases hpy : convertSklearnTreeToTfdfPytree fuel m with
    | none => simp only [hpy] at hmdl; simp at hmdl
    | some r =>
      cases r with
      | error e => simp only [hpy] at hmdl; simp at hmdl
      | ok t =>
        simp only [hpy, Option.some_inj, Except.ok.injEq] at hmdl
        cases hmdl
        rfl
  · intro h
    refine ⟨by unfold buildTfdfModel; rcases h with h | h <;> rw [h], ?_⟩
    intro mdl hmdl
    unfold buildTfdfModelClassification at hmdl
    cases hcls : m.classes_ with
    | none => simp only [hcls] at hmdl; simp at hmdl
    | some cls =>
      simp only [hcls] at hmdl
      cases hpy : convertSklearnTreeToTfdfPytree fuel m with
      | none => simp only [hpy] at hmdl; simp at hmdl
      | some r =>
        cases r with
        | error e => simp only [hpy] at hmdl; simp at hmdl
        | ok t =>
          simp only [hpy, Option.some_inj, Except.ok.injEq] at hmdl
          cases hmdl
          exact ⟨cls, rfl, rfl⟩
  · intro tn h
    unfold buildTfdfModel
    rw [h]

/-- Witness for C7: a linear model is rejected by name. -/
theorem dispatch_closed_switch_witness :
    buildTfdfModel 0 linearModel = some (.error (.NotImplementedError
      ("Can’t build a TFDF model for " ++ "LinearRegression"))) :=
  (dispatch_closed_switch 0 linearModel).2.2 "LinearRegression" rfl

theorem convertNode_leafValues {nodes : List PyNode} :
    ∀ {f : Nat} {i : Int} {t : AbstractNode},
      convertSklearnNodeToTfdfNode nodes f i = some (.ok (some t)) →
      ∀ v ∈ leafValues t, ∃ nd ∈ nodes, nd.value = v := by
  intro f
  induction f with
  | zero => intro i t h; simp [convertSklearnNodeToTfdfNode] at h
  | succ f ih =>
    intro i t h v hv
    by_cases hi : i = -1
    · subst hi; exact absurd h convertNode_neg_one_not_node
    · rw [convertSklearnNodeToTfdfNode] at h
      simp only [hi, if_false] at h
      cases hget : pyGet nodes i with
      | none => simp [hget] at h
      | some node =>
        simp only [hget] at h
        cases hL : convertSklearnNodeToTfdfNode nodes f node.left_child with
        | none => simp [hL] at h
        | some rl =>
          rw [hL] at h
          cases rl with
          | error e => simp at h
          | ok neg_child =>
            simp only at h
            cases hR : convertSklearnNodeToTfdfNode nodes f node.right_child with
            | none => simp [hR] at h
            | some rr =>
              rw [hR] at h
              cases rr with
              | error e => simp at h
              | ok pos_child =>
                cases pos_child with
                | none =>
                  obtain rfl : t = .LeafNode node.value := by
                    simp only [Option.some_inj] at h; cases h; rfl
                  simp only [leafValues, List.mem_singleton] at hv
                  exact ⟨node, pyGet_mem hget, hv.symm⟩
                | some pc =>
                  cases neg_child with
                  | none =>
                    obtain rfl : t = .NonLeafNode
                        ⟨⟨pyStr node.feature, .NUMERICAL, node.feature⟩,
                          node.threshold, false⟩ pc none := by
                      simp only [Option.some_inj] at h; cases h; rfl
                    simp only [leafValues] at hv
                    exact ih hR v hv
                  | some nt =>
                    obtain rfl : t = .NonLeafNode
                        ⟨⟨pyStr node.feature, .NUMERICAL, node.feature⟩,
                          node.threshold, false⟩ pc (some nt) := by
                      simp only [Option.some_inj] at h; cases h; rfl
                    simp only [leafValues, List.mem_append] at hv
                    rcases hv with hv | hv
                    · exact ih hR v hv
                    · exact ih hL v hv

/-- **C4**: for a classification tree whose per-node count rows are
nonnegative with a positive sum, the value built for each node is the count
vector divided by its sum, and consequently every leaf of the converted tree
carries a vector with nonnegative entries summing to exactly 1 (over `ℚ`). -/
theorem classification_leaf_values_normalized
    {fuel : Nat} {m : ScikitLearnModel} {st : SklearnTreeState}
    {t : AbstractNode}
    (hst : m.tree_ = some st)
    (htask : getSklearnTreeTaskType m = .SINGLE_LABEL_CLASSIFICATION)
    (hcounts : countsOk st.values = true)
    (hconv : convertSklearnTreeToTfdfPytree fuel m = some (.ok ⟨some t⟩)) :
    ∀ v ∈ leafValues t, ∃ row : List ℚ,
      (∀ c ∈ row, 0 ≤ c) ∧ 0 < row.sum ∧
      v = .ProbabilityValue (row.map (fun c => c / row.sum)) ∧
      (∀ q ∈ row.map (fun c => c / row.sum), 0 ≤ q) ∧
      (row.map (fun c => c / row.sum)).sum = 1 := by
  intro v hv
  obtain ⟨pyNodes, hbn, hcv⟩ := convertPytree_ok_inv hst hconv
  obtain ⟨nd, hndmem, hndv⟩ := convertNode_leafValues hcv v hv
  obtain ⟨k, hk⟩ := List.mem_iff_getElem?.mp hndmem
  obtain ⟨p, hp, _, _, _, _, hbv⟩ := (buildNodes_spec hbn).2 k nd hk
  have hpmem : p ∈ st.nodes.zip st.values := List.getElem?_mem hp
  have htvmem : p.2 ∈ st.values := (List.of_mem_zip hpmem).2
  rw [htask] at hbv
  unfold buildValue at hbv
  cases hrow : pyGet p.2 0 with
  | none => simp only [hrow] at hbv; simp at hbv
  | some row =>
    simp only [hrow, Except.ok.injEq] at hbv
    have hco := List.all_eq_true.mp hcounts p.2 htvmem
    simp only [hrow] at hco
    unfold countsOkRow at hco
    simp only [Bool.and_eq_true, List.all_eq_true, decide_eq_true_eq] at hco
    obtain ⟨hnn, hpos⟩ := hco
    refine ⟨row, hnn, hpos, ?_, ?_, ?_⟩
    · rw [← hndv, ← hbv]
    · intro q hq
      simp only [List.mem_map] at hq
      obtain ⟨c, hc, rfl⟩ := hq
      exact div_nonneg (hnn c hc) (le_of_lt hpos)
    · rw [sum_map_div]
      exact div_self (ne_of_gt hpos)

/-- Witness for C4: the negative leaf of the hand-built classification tree
carries an exact probability vector. -/
theorem classification_leaf_values_normalized_witness :
    ∃ row : List ℚ,
      (∀ c ∈ row, 0 ≤ c) ∧ 0 < row.sum ∧
      AbstractValue.ProbabilityValue
          (List.map (fun c => c / ([2, 0] : List ℚ).sum) [2, 0])
        = .ProbabilityValue (row.map (fun c => c / row.sum)) ∧
      (∀ q ∈ row.map (fun c => c / row.sum), 0 ≤ q) ∧
      (row.map (fun c => c / row.sum)).sum = 1 :=
  @classification_leaf_values_normalized 3 clsModel clsTreeState clsTree0
    rfl (by decide)
    (by norm_num [countsOk, countsOkRow, pyGet, clsTreeState]) rfl
    (.ProbabilityValue (List.map (fun c => c / ([2, 0] : List ℚ).sum) [2, 0]))
    (by simp [clsTree0, leafValues])

theorem fsRemoveDir_fresh {fs : FileSystem} {d : String} (h : d ∉ fsDirs fs) :
    fsRemoveDir fs d = fs := by
  unfold fsRemoveDir
  apply List.filter_eq_self.mpr
  intro e he
  simp only [ne_eq, decide_eq_true_eq]
  intro hE
  exact h (hE ▸ List.mem_map_of_mem Prod.fst he)

theorem fsRemoveDir_cons_self {fs : FileSystem} {d : String}
    {files : List String} :
    fsRemoveDir ((d, files) :: fs) d = fsRemoveDir fs d := by
  unfold fsRemoveDir
  simp

/-- **C9**: when no output directory is supplied (or the falsy empty path),
the scoped temporary directory is removed before `convert` finishes on every
exit path — successful or failing build alike — leaving the filesystem
exactly as it was; when the caller supplies a (nonempty) path it is used
as-is: every pre-existing entry survives, and on success the model artifact
is written into exactly that directory. Directory creation, teardown and the
builder's artifact write are modelled from the spec, as they happen inside
external collaborators. -/
theorem tempdir_cleanup :
    (∀ (fuel : Nat) (m : ScikitLearnModel) (fs : FileSystem) (tmp : String)
        (pathOpt : Option String) (r : Except PyError KerasModel)
        (fs' : FileSystem),
      (pathOpt = none ∨ pathOpt = some "") →
      tmp ∉ fsDirs fs →
      convert fuel m pathOpt fs tmp = some (r, fs') →
      fs' = fs) ∧
    (∀ (fuel : Nat) (m : ScikitLearnModel) (fs : FileSystem) (tmp p : String)
        (r : Except PyError KerasModel) (fs' : FileSystem),
      p ≠ "" →
      convert fuel m (some p) fs tmp = some (r, fs') →
      (∀ e ∈ fs, e ∈ fs') ∧
      ∀ km, r = .ok km → fs' = fsWriteArtifacts fs p) := by
  constructor
  · intro fuel m fs tmp pathOpt r fs' hpo htmp hcv
    unfold convert buildTfdfModelFS at hcv
    rw [if_pos hpo] at hcv
    cases hb : buildTfdfModel fuel m with
    | none => simp only [hb] at hcv; cases hcv
    | some rb =>
      cases rb with
      | error e =>
        simp only [hb, Option.some_inj, Prod.mk.injEq] at hcv
        obtain ⟨-, h2⟩ := hcv
        rw [← h2]
        unfold fsMkdir
        rw [fsRemoveDir_cons_self, fsRemoveDir_fresh htmp]
      | ok mdl =>
        simp only [hb, Option.some_inj, Prod.mk.injEq] at hcv
        obtain ⟨-, h2⟩ := hcv
        rw [← h2]
        unfold fsWriteArtifacts fsMkdir
        rw [fsRemoveDir_cons_self, fsRemoveDir_cons_self, fsRemoveDir_fresh htmp]
  · intro fuel m fs tmp p r fs' hp hcv
    unfold convert buildTfdfModelFS at hcv
    rw [if_neg (fun hor => hor.elim (fun h => by cases h)
      (fun h => hp (Option.some.inj h)))] at hcv
    cases hb : buildTfdfModel fuel m with
    | none => simp only [hb] at hcv; cases hcv
    | some rb =>
      cases rb with
      | error e =>
        simp only [hb, Option.some_inj, Prod.mk.injEq] at hcv
        obtain ⟨h1, h2⟩ := hcv
        subst h2
        exact ⟨fun e he => he, fun km hkm => absurd (h1 ▸ hkm) (by simp)⟩
      | ok mdl =>
        simp only [hb, Option.some_inj, Prod.mk.injEq] at hcv
        obtain ⟨h1, h2⟩ := hcv
        subst h2
        refine ⟨fun e he => ?_, fun km hkm => rfl⟩
        unfold fsWriteArtifacts
        exact List.mem_cons_of_mem _ he

/-- Witness for C9: converting with no supplied path on an empty filesystem
leaves it empty; converting into a pre-existing directory `out` preserves it
and adds the artifact there. -/
theorem tempdir_cleanup_witness :
    ([] : FileSystem) = [] ∧
    ((∀ e ∈ ([("out", [])] : FileSystem),
        e ∈ fsWriteArtifacts [("out", [])] "out") ∧
      ∀ km, (Except.ok regKeras : Except PyError KerasModel) = .ok km →
        fsWriteArtifacts [("out", [])] "out" =
          fsWriteArtifacts [("out", [])] "out") :=
  ⟨tempdir_cleanup.1 3 regModel [] "tmp" none (.ok regKeras) []
      (Or.inl rfl) (by decide) rfl,
    tempdir_cleanup.2 3 regModel [("out", [])] "tmp" "out" (.ok regKeras)
      (fsWriteArtifacts [("out", [])] "out") (by decide) rfl⟩

theorem pyGet_pos {l : List α} {i : Int} {a : α} (h : pyGet l i = some a) :
    ∃ k : Nat, k < l.length ∧ l[k]? = some a ∧
      k = (if 0 ≤ i then i.toNat else (i + l.length).toNat) := by
  unfold pyGet at h
  by_cases h0 : 0 ≤ i
  · simp only [h0, if_true] at h ⊢
    refine ⟨i.toNat, ?_, h, rfl⟩
    by_contra hk
    rw [List.getElem?_eq_none (by omega)] at h
    cases h
  · simp only [h0, if_false] at h ⊢
    by_cases h1 : 0 ≤ i + (l.length : Int)
    · simp only [h1, if_true] at h
      refine ⟨(i + l.length).toNat, ?_, h, rfl⟩
      by_contra hk
      rw [List.getElem?_eq_none (by omega)] at h
      cases h
    · simp only [h1, if_false] at h
      cases h

theorem noSelfAncestor_of_childrenIncrease {nodes : List PyNode}
    (h : childrenIncrease nodes = true) : NoSelfAncestor nodes := by
  unfold childrenIncrease at h
  have h' := List.all_eq_true.mp h
  have hstep : ∀ i j, ChildIndex nodes i j →
      (nodes.length - (if 0 ≤ j then j.toNat else (j + nodes.length).toNat)) <
      (nodes.length - (if 0 ≤ i then i.toNat else (i + nodes.length).toNat)) := by
    intro i j hij
    obtain ⟨nd, hget, hchild, hj⟩ := hij
    obtain ⟨k, hk, hgetk, hkdef⟩ := pyGet_pos hget
    have hItem := h' k (List.mem_range.mpr hk)
    simp only [hgetk, Bool.and_eq_true, Bool.or_eq_true, decide_eq_true_eq]
      at hItem
    obtain ⟨hl, hrg⟩ := hItem
    have hkj : (k : Int) < j := by
      rcases hchild with hc | hc
      · subst hc
        rcases hl with h1 | h1
        · exact absurd h1 hj
        · exact h1
      · subst hc
        rcases hrg with h1 | h1
        · exact absurd h1 hj
        · exact h1
    have h0j : 0 ≤ j := by omega
    rw [if_pos h0j, ← hkdef]
    omega
  intro i hd
  have mono : ∀ a b, Relation.TransGen (fun v u => ChildIndex nodes u v) a b →
      (nodes.length - (if 0 ≤ a then a.toNat else (a + nodes.length).toNat)) <
      (nodes.length - (if 0 ≤ b then b.toNat else (b + nodes.length).toNat)) := by
    intro a b hab
    induction hab with
    | single h1 => exact hstep _ _ h1
    | tail _ h1 ih => exact lt_trans ih (hstep _ _ h1)
  exact absurd (mono i i hd) (lt_irrefl _)

/-- **C10**: for a flat node array whose child indices describe a tree —
every child index is `-1` or a valid index, and no node is its own strict
ancestor — the recursive conversion terminates from the root index (and from
every valid starting index): some finite fuel makes it return. Acyclicity is
a precondition, not defended against; on cyclic input the fuel-indexed model
simply never returns. -/
theorem acyclic_conversion_terminates {nodes : List PyNode}
    (hvalid : validChildIndices nodes = true)
    (hacyc : NoSelfAncestor nodes) :
    ∀ i : Int, (i = -1 ∨ (0 ≤ i ∧ i < (nodes.length : Int))) →
      ∃ fuel, (convertSklearnNodeToTfdfNode nodes fuel i).isSome = true := by
  unfold validChildIndices at hvalid
  have hvalid' := List.all_eq_true.mp hvalid
  have main : ∀ a : Fin nodes.length,
      ∃ fuel, (convertSklearnNodeToTfdfNode nodes fuel
        ((a.val : Nat) : Int)).isSome = true := by
    have hwf : WellFounded (Relation.TransGen
        (fun (v u : Fin nodes.length) =>
          ChildIndex nodes (u.val : Int) (v.val : Int))) := by
      letI : IsIrrefl (Fin nodes.length) (Relation.TransGen
          (fun (v u : Fin nodes.length) =>
            ChildIndex nodes (u.val : Int) (v.val : Int))) :=
        ⟨fun a ha => hacyc (a.val : Int)
          (Relation.TransGen.lift (fun x : Fin nodes.length => (x.val : Int))
            (fun _ _ hab => hab) ha)⟩
      exact Finite.wellFounded_of_trans_of_irrefl _
    intro a
    refine @WellFounded.induction _ _ hwf
      (fun a => ∃ fuel, (convertSklearnNodeToTfdfNode nodes fuel
        ((a.val : Nat) : Int)).isSome = true) a ?_
    intro b ih
    obtain ⟨nd, hget⟩ := @pyGet_eq_some_of_lt PyNode nodes
      ((b.val : Nat) : Int) (by omega) (by exact_mod_cast b.isLt)
    have hv := hvalid' nd (pyGet_mem hget)
    simp only [Bool.and_eq_true, Bool.or_eq_true, decide_eq_true_eq] at hv
    obtain ⟨hvl, hvr⟩ := hv
    have hL : ∃ fuel,
        (convertSklearnNodeToTfdfNode nodes fuel nd.left_child).isSome = true := by
      rcases hvl with h1 | ⟨h1, h2⟩
      · exact ⟨1, by rw [h1]; simp [convertSklearnNodeToTfdfNode]⟩
      · have hlt : nd.left_child.toNat < nodes.length := by omega
        have hstep : Relation.TransGen
            (fun (v u : Fin nodes.length) =>
              ChildIndex nodes (u.val : Int) (v.val : Int))
            ⟨nd.left_child.toNat, hlt⟩ b :=
          Relation.TransGen.single
            ⟨nd, hget, Or.inl (by simp; omega), by simp; omega⟩
        have := ih ⟨nd.left_child.toNat, hlt⟩ hstep
        simpa [Int.toNat_of_nonneg h1] using this
    have hR : ∃ fuel,
        (convertSklearnNodeToTfdfNode nodes fuel nd.right_child).isSome = true := by
      rcases hvr with h1 | ⟨h1, h2⟩
      · exact ⟨1, by rw [h1]; simp [convertSklearnNodeToTfdfNode]⟩
      · have hlt : nd.right_child.toNat < nodes.length := by omega
        have hstep : Relation.TransGen
            (fun (v u : Fin nodes.length) =>
              ChildIndex nodes (u.val : Int) (v.val : Int))
            ⟨nd.right_child.toNat, hlt⟩ b :=
          Relation.TransGen.single
            ⟨nd, hget, Or.inr (by simp; omega), by simp; omega⟩
        have := ih ⟨nd.right_child.toNat, hlt⟩ hstep
        simpa [Int.toNat_of_nonneg h1] using this
    obtain ⟨fl, hfl⟩ := hL
    obtain ⟨fr, hfr⟩ := hR
    refine ⟨max fl fr + 1, ?_⟩
    rw [convertSklearnNodeToTfdfNode]
    rw [if_neg (by omega)]
    simp only [hget]
    obtain ⟨rl, hrl⟩ := Option.isSome_iff_exists.mp hfl
    rw [convertNode_mono (Nat.le_max_left fl fr) hrl]
    cases rl with
    | error e => simp
    | ok neg =>
      obtain ⟨rr, hrr⟩ := Option.isSome_iff_exists.mp hfr
      simp only [convertNode_mono (Nat.le_max_right fl fr) hrr]
      cases rr with
      | error e => simp
      | ok pos => cases pos <;> simp
  intro i hi
  rcases hi with rfl | ⟨h0, h1⟩
  · exact ⟨1, by simp [convertSklearnNodeToTfdfNode]⟩
  · have hlt : i.toNat < nodes.length := by omega
    have := main ⟨i.toNat, hlt⟩
    simpa [Int.toNat_of_nonneg h0] using this

/-- Witness for C10: the hand-built three-node array is valid and acyclic
(children sit at strictly larger indices), so conversion from the root
terminates. -/
theorem acyclic_conversion_terminates_witness :
    ∃ fuel, (convertSklearnNodeToTfdfNode regPyNodes fuel 0).isSome = true :=
  acyclic_conversion_terminates (by decide)
    (noSelfAncestor_of_childrenIncrease (by decide)) 0 (Or.inr (by decide))

theorem convertNode_condsOk {nodes : List PyNode}
    (hleaf : leafConsistentOn (fun nd => nd.left_child)
      (fun nd => nd.right_child) nodes = true)
    (hfeat : internalFeaturesNonnegOn (fun nd => nd.left_child)
      (fun nd => nd.feature) nodes = true) :
    ∀ {f : Nat} {i : Int} {t : AbstractNode},
      convertSklearnNodeToTfdfNode nodes f i = some (.ok (some t)) →
      condsOk t = true := by
  intro f
  induction f with
  | zero => intro i t h; simp [convertSklearnNodeToTfdfNode] at h
  | succ f ih =>
    intro i t h
    by_cases hi : i = -1
    · subst hi; exact absurd h convertNode_neg_one_not_node
    · rw [convertSklearnNodeToTfdfNode] at h
      simp only [hi, if_false] at h
      cases hget : pyGet nodes i with
      | none => simp [hget] at h
      | some node =>
        simp only [hget] at h
        cases hL : convertSklearnNodeToTfdfNode nodes f node.left_child with
        | none => simp [hL] at h
        | some rl =>
          rw [hL] at h
          cases rl with
          | error e => simp at h
          | ok neg_child =>
            simp only at h
            cases hR : convertSklearnNodeToTfdfNode nodes f node.right_child with
            | none => simp [hR] at h
            | some rr =>
              rw [hR] at h
              cases rr with
              | error e => simp at h
              | ok pos_child =>
                cases pos_child with
                | none =>
                  obtain rfl : t = .LeafNode node.value := by
                    simp only [Option.some_inj] at h; cases h; rfl
                  rfl
                | some pc =>
                  have hr1 : node.right_child ≠ -1 := by
                    intro hr
                    rw [hr] at hR
                    exact convertNode_neg_one_not_node hR
                  have hlc := (List.all_eq_true.mp hleaf) node (pyGet_mem hget)
                  have hl1 : node.left_child ≠ -1 := by
                    intro hl
                    simp [hl, decide_eq_true_eq] at hlc
                    exact hr1 hlc
                  have hfe := (List.all_eq_true.mp hfeat) node (pyGet_mem hget)
                  have h0f : 0 ≤ node.feature := by
                    simp only [Bool.or_eq_true, decide_eq_true_eq] at hfe
                    rcases hfe with h1 | h1
                    · exact absurd h1 hl1
                    · exact h1
                  cases neg_child with
                  | none =>
                    obtain rfl : t = .NonLeafNode
                        ⟨⟨pyStr node.feature, .NUMERICAL, node.feature⟩,
                          node.threshold, false⟩ pc none := by
                      simp only [Option.some_inj] at h; cases h; rfl
                    simp only [condsOk, Bool.and_eq_true, decide_eq_true_eq]
                    exact ⟨⟨h0f, trivial⟩, ih hR⟩
                  | some nt =>
                    obtain rfl : t = .NonLeafNode
                        ⟨⟨pyStr node.feature, .NUMERICAL, node.feature⟩,
                          node.threshold, false⟩ pc (some nt) := by
                      simp only [Option.some_inj] at h; cases h; rfl
                    simp only [condsOk, Bool.and_eq_true, decide_eq_true_eq]
                    exact ⟨⟨⟨h0f, trivial⟩, ih hR⟩, ih hL⟩

theorem condsOk_used_nonneg :
    ∀ t : AbstractNode, condsOk t = true → ∀ c ∈ usedColIndices t, 0 ≤ c
  | .LeafNode _, _, c, hc => by simp [usedColIndices] at hc
  | .NonLeafNode cond pos none, h, c, hc => by
    simp only [condsOk, Bool.and_eq_true, decide_eq_true_eq] at h
    simp only [usedColIndices, List.mem_cons] at hc
    rcases hc with rfl | hc
    · exact h.1.1
    · exact condsOk_used_nonneg pos h.2 c hc
  | .NonLeafNode cond pos (some neg), h, c, hc => by
    simp only [condsOk, Bool.and_eq_true, decide_eq_true_eq] at h
    simp only [usedColIndices, List.mem_cons, List.mem_append] at hc
    rcases hc with rfl | hc | hc
    · exact h.1.1.1
    · exact condsOk_used_nonneg pos h.1.2 c hc
    · exact condsOk_used_nonneg neg h.2 c hc

theorem routeByName_eq_route (x : List ℚ) (keys : List (List Nat)) :
    ∀ t : AbstractNode, condsOk t = true →
      (∀ nm ∈ usedFeatureNames t, nm ∈ keys) →
      routeByName
        (fun nm => if nm ∈ keys then some (featVal x (pyInt nm)) else none) t
        = routeAbstractNode x t
  | .LeafNode v, _, _ => rfl
  | .NonLeafNode cond pos none, h1, h2 => by
    simp only [condsOk, Bool.and_eq_true, decide_eq_true_eq] at h1
    obtain ⟨⟨h0, hname⟩, hpos⟩ := h1
    have hmem : cond.feature.name ∈ keys :=
      h2 _ (by simp [usedFeatureNames])
    simp only [routeByName, routeAbstractNode, hmem, if_true]
    rw [hname, pyInt_pyStr h0]
    rw [routeByName_eq_route x keys pos hpos
      (fun nm hnm => h2 nm (by simp [usedFeatureNames, hnm]))]
  | .NonLeafNode cond pos (some neg), h1, h2 => by
    simp only [condsOk, Bool.and_eq_true, decide_eq_true_eq] at h1
    obtain ⟨⟨⟨h0, hname⟩, hpos⟩, hneg⟩ := h1
    have hmem : cond.feature.name ∈ keys :=
      h2 _ (by simp [usedFeatureNames])
    simp only [routeByName, routeAbstractNode, hmem, if_true]
    rw [hname, pyInt_pyStr h0]
    rw [routeByName_eq_route x keys pos hpos
      (fun nm hnm => h2 nm (by simp [usedFeatureNames, hnm]))]
    rw [routeByName_eq_route x keys neg hneg
      (fun nm hnm => h2 nm (by simp [usedFeatureNames, hnm]))]

theorem route_eq_of_used_agree (x x' : List ℚ) :
    ∀ t : AbstractNode,
      (∀ c ∈ usedColIndices t, featVal x c = featVal x' c) →
      routeAbstractNode x t = routeAbstractNode x' t
  | .LeafNode v, _ => rfl
  | .NonLeafNode cond pos none, h => by
    have hc : featVal x cond.feature.col_idx = featVal x' cond.feature.col_idx :=
      h _ (by simp [usedColIndices])
    simp only [routeAbstractNode, hc]
    by_cases hlt : cond.threshold < featVal x' cond.feature.col_idx
    · rw [if_pos hlt, if_pos hlt]
      exact route_eq_of_used_agree x x' pos
        (fun c hcc => h c (by simp [usedColIndices, hcc]))
    · rw [if_neg hlt, if_neg hlt]
  | .NonLeafNode cond pos (some neg), h => by
    have hc : featVal x cond.feature.col_idx = featVal x' cond.feature.col_idx :=
      h _ (by simp [usedColIndices])
    simp only [routeAbstractNode, hc]
    by_cases hlt : cond.threshold < featVal x' cond.feature.col_idx
    · rw [if_pos hlt, if_pos hlt]
      exact route_eq_of_used_agree x x' pos
        (fun c hcc => h c (by simp [usedColIndices, hcc]))
    · rw [if_neg hlt, if_neg hlt]
      exact route_eq_of_used_agree x x' neg
        (fun c hcc => h c (by simp [usedColIndices, hcc]))

theorem convert_ok_inv {fuel : Nat} {m : ScikitLearnModel}
    {pathOpt : Option String} {fs : FileSystem} {tmp : String}
    {km : KerasModel} {fs' : FileSystem}
    (h : convert fuel m pathOpt fs tmp = some (.ok km, fs')) :
    ∃ mdl, buildTfdfModel fuel m = some (.ok mdl) ∧
      km = ⟨m.n_features_in_, mdl⟩ := by
  unfold convert buildTfdfModelFS at h
  by_cases hpo : pathOpt = none ∨ pathOpt = some ""
  · rw [if_pos hpo] at h
    cases hb : buildTfdfModel fuel m with
    | none => simp only [hb] at h; cases h
    | some rb =>
      cases rb with
      | error e =>
        simp only [hb, Option.some_inj, Prod.mk.injEq] at h
        obtain ⟨h1, -⟩ := h
        cases h1
      | ok mdl =>
        simp only [hb, Option.some_inj, Prod.mk.injEq, Except.ok.injEq] at h
        obtain ⟨h1, -⟩ := h
        exact ⟨mdl, rfl, h1.symm⟩
  · rw [if_neg hpo] at h
    cases pathOpt with
    | none => exact absurd (Or.inl rfl) hpo
    | some p =>
      simp only at h
      cases hb : buildTfdfModel fuel m with
      | none => simp only [hb] at h; cases h
      | some rb =>
        cases rb with
        | error e =>
          simp only [hb, Option.some_inj, Prod.mk.injEq] at h
          obtain ⟨h1, -⟩ := h
          cases h1
        | ok mdl =>
          simp only [hb, Option.some_inj, Prod.mk.injEq, Except.ok.injEq] at h
          obtain ⟨h1, -⟩ := h
          exact ⟨mdl, rfl, h1.symm⟩

theorem buildPathRegression_ok_inv {fuel : Nat} {m : ScikitLearnModel}
    {mdl : TfdfModel}
    (h : buildTfdfModelRegression fuel m = some (.ok mdl)) :
    ∃ r : Option AbstractNode,
      convertSklearnTreeToTfdfPytree fuel m = some (.ok ⟨r⟩) ∧
      mdl.tree = ⟨r⟩ := by
  unfold buildTfdfModelRegression at h
  cases hpy : convertSklearnTreeToTfdfPytree fuel m with
  | none => simp only [hpy] at h; cases h
  | some rp =>
    cases rp with
    | error e => simp only [hpy] at h; simp at h
    | ok t =>
      obtain ⟨r⟩ := t
      simp only [hpy, Option.some_inj, Except.ok.injEq] at h
      cases h
      exact ⟨r, rfl, rfl⟩

theorem buildPathClassification_ok_inv {fuel : Nat} {m : ScikitLearnModel}
    {mdl : TfdfModel}
    (h : buildTfdfModelClassification fuel m = some (.ok mdl)) :
    ∃ r : Option AbstractNode,
      convertSklearnTreeToTfdfPytree fuel m = some (.ok ⟨r⟩) ∧
      mdl.tree = ⟨r⟩ := by
  unfold buildTfdfModelClassification at h
  cases hcls : m.classes_ with
  | none => simp only [hcls] at h; simp at h
  | some cls =>
    simp only [hcls] at h
    cases hpy : convertSklearnTreeToTfdfPytree fuel m with
    | none => simp only [hpy] at h; cases h
    | some rp =>
      cases rp with
      | error e => simp only [hpy] at h; simp at h
      | ok t =>
        obtain ⟨r⟩ := t
        simp only [hpy, Option.some_inj, Except.ok.injEq] at h
        cases h
        exact ⟨r, rfl, rfl⟩

theorem buildTfdfModel_ok_inv {fuel : Nat} {m : ScikitLearnModel}
    {mdl : TfdfModel}
    (h : buildTfdfModel fuel m = some (.ok mdl)) :
    ∃ r : Option AbstractNode,
      convertSklearnTreeToTfdfPytree fuel m = some (.ok ⟨r⟩) ∧
      mdl.tree = ⟨r⟩ := by
  unfold buildTfdfModel at h
  cases hmt : m.modelType
  all_goals simp only [hmt] at h
  case DecisionTreeRegressor => exact buildPathRegression_ok_inv h
  case ExtraTreeRegressor => exact buildPathRegression_ok_inv h
  case DecisionTreeClassifier => exact buildPathClassification_ok_inv h
  case ExtraTreeClassifier => exact buildPathClassification_ok_inv h
  case OtherModel n => simp at h

/-- **C8**: the wrapped model returned by `convert` declares a single dense
input of width `n_features_in_` (the estimator's total feature count); on an
input of that width it feeds the underlying model exactly the columns named
in the signature, each selected by parsing the identifier back into an
integer column index, so its prediction equals the underlying model's routing
on the full row; and varying any feature column that appears in no split
never changes the output. The keras signature plumbing is modelled from the
spec, as it lives in external collaborators. -/
theorem wrapped_model_signature
    {fuel : Nat} {m : ScikitLearnModel} {st : SklearnTreeState}
    {pathOpt : Option String} {fs fs' : FileSystem} {tmp : String}
    {km : KerasModel}
    (hst : m.tree_ = some st)
    (hleaf : leafConsistentOn (fun nd => nd.left_child)
      (fun nd => nd.right_child) st.nodes = true)
    (hfeat : internalFeaturesNonnegOn (fun nd => nd.left_child)
      (fun nd => nd.feature) st.nodes = true)
    (hval : st.values.length = st.nodes.length)
    (hconv : convert fuel m pathOpt fs tmp = some (.ok km, fs')) :
    km.inputWidth = m.n_features_in_ ∧
    (∀ x : List ℚ, kerasPredict km x =
      if x.length = m.n_features_in_ then tfdfPredict km.tfdfModel x
      else none) ∧
    (∀ (x x' : List ℚ) (j : Nat),
      x.length = m.n_features_in_ → x'.length = m.n_features_in_ →
      (∀ k : Nat, k ≠ j → x[k]? = x'[k]?) →
      ((j : Nat) : Int) ∉ modelUsedColIndices km.tfdfModel →
      kerasPredict km x = kerasPredict km x') := by
  obtain ⟨mdl, hb, rfl⟩ := convert_ok_inv hconv
  obtain ⟨r, hpy, htree⟩ := buildTfdfModel_ok_inv hb
  obtain ⟨pyNodes, hbn, hcv⟩ := convertPytree_ok_inv hst hpy
  cases r with
  | none => exact absurd (convertNode_ok_none hcv) (by decide)
  | some rt =>
    obtain ⟨hsc, _⟩ := buildNodes_corresp hval hbn
    have hco : condsOk rt = true :=
      convertNode_condsOk (leafConsistent_transfer hsc hleaf)
        (featNonneg_transfer hsc hfeat) hcv
    have h2 : ∀ x : List ℚ,
        kerasPredict ⟨m.n_features_in_, mdl⟩ x =
          if x.length = m.n_features_in_ then tfdfPredict mdl x else none := by
      intro x
      unfold kerasPredict tfdfPredict signatureKeys
      rw [htree]
      simp only
      by_cases hw : x.length = m.n_features_in_
      · rw [if_pos hw, if_pos hw]
        exact routeByName_eq_route x (usedFeatureNames rt) rt hco (fun nm h => h)
      · rw [if_neg hw, if_neg hw]
    refine ⟨rfl, h2, ?_⟩
    intro x x' j hx hx' hagree hnotused
    rw [h2 x, h2 x', if_pos hx, if_pos hx']
    unfold tfdfPredict
    rw [htree]
    simp only
    apply route_eq_of_used_agree
    intro c hc
    have h0c : 0 ≤ c := condsOk_used_nonneg rt hco c hc
    have hcj : c.toNat ≠ j := by
      intro hcj
      apply hnotused
      unfold modelUsedColIndices
      rw [htree]
      simp only
      have hceq : c = ((j : Nat) : Int) := by omega
      rwa [hceq] at hc
    unfold featVal
    rw [if_pos h0c, if_pos h0c, List.getD_eq_getElem?_getD,
      List.getD_eq_getElem?_getD, hagree c.toNat hcj]

/-- Witness for C8: the wrapped model of the hand-built regression estimator
has input width 3, matches the unwrapped routing, and ignores the unused
columns 1 and 2. -/
theorem wrapped_model_signature_witness :
    regKeras.inputWidth = regModel.n_features_in_ ∧
    (∀ x : List ℚ, kerasPredict regKeras x =
      if x.length = regModel.n_features_in_ then tfdfPredict regKeras.tfdfModel x
      else none) ∧
    (∀ (x x' : List ℚ) (j : Nat),
      x.length = regModel.n_features_in_ → x'.length = regModel.n_features_in_ →
      (∀ k : Nat, k ≠ j → x[k]? = x'[k]?) →
      ((j : Nat) : Int) ∉ modelUsedColIndices regKeras.tfdfModel →
      kerasPredict regKeras x = kerasPredict regKeras x') :=
  @wrapped_model_signature 3 regModel regTreeState none [] [] "tmp" regKeras
    rfl (by decide) (by decide) (by decide) rfl

end ScikitLearnModelConverter
